import Mathlib

/-!
# Verification of the Checkpoint & Session Lifecycle Engine

Shallow embedding of the core modules of the `entire-cli` repository:

* the pure session state machine and its action-application harness
  (`src/session/state-machine.ts`),
* the attribution engine (`diffLines`, `calculateAttributionWithAccumulated`,
  `estimateUserSelfModifications`),
* the content-overlap detector (`filesOverlapWithContent`,
  `hasSignificantContentOverlap`) and `countLines`.

TypeScript `Map`s are embedded as association lists with map semantics,
strings as Lean `String`, JS numbers used as integer counters as `Int`/`Nat`,
and the single floating-point percentage as `Rat` (all values that arise are
exactly representable). Async handler actions that may throw are embedded as
functions returning `Option String` (the thrown error message, if any).
-/

namespace EntireCli

/-! ## Session state machine (`src/session/state-machine.ts`) -/

/-- `Phase` from `state-machine.ts`. -/
inductive Phase where
  | idle
  | active
  | ended
deriving DecidableEq, Repr

/-- `StateMachineEvent` from `state-machine.ts`. -/
inductive SMEvent where
  | turnStart
  | turnEnd
  | gitCommit
  | sessionStart
  | sessionStop
  | compaction
deriving DecidableEq, Repr

/-- `Action` from `state-machine.ts`. -/
inductive SMAction where
  | condense
  | condenseIfFilesTouched
  | discardIfNoFiles
  | warnStaleSession
  | clearEndedAt
  | updateLastInteraction
deriving DecidableEq, Repr

/-- `TransitionContext` from `state-machine.ts`. -/
structure TransitionContext where
  hasFilesTouched : Bool
  isRebaseInProgress : Bool
deriving DecidableEq, Repr

/-- `TransitionResult` from `state-machine.ts`. -/
structure TransitionResult where
  newPhase : Phase
  actions : List SMAction
deriving DecidableEq, Repr

/-- `transitionFromIdle` from `state-machine.ts`. -/
def transitionFromIdle (event : SMEvent) (ctx : TransitionContext) : TransitionResult :=
  match event with
  | .turnStart => ⟨.active, [.updateLastInteraction]⟩
  | .turnEnd => ⟨.idle, []⟩
  | .gitCommit =>
    if ctx.isRebaseInProgress then ⟨.idle, []⟩
    else ⟨.idle, [.condense, .updateLastInteraction]⟩
  | .sessionStart => ⟨.idle, []⟩
  | .sessionStop => ⟨.ended, [.updateLastInteraction]⟩
  | .compaction => ⟨.idle, [.condenseIfFilesTouched, .updateLastInteraction]⟩

/-- `transitionFromActive` from `state-machine.ts`. -/
def transitionFromActive (event : SMEvent) (ctx : TransitionContext) : TransitionResult :=
  match event with
  | .turnStart => ⟨.active, [.updateLastInteraction]⟩
  | .turnEnd => ⟨.idle, [.updateLastInteraction]⟩
  | .gitCommit =>
    if ctx.isRebaseInProgress then ⟨.active, []⟩
    else ⟨.active, [.condense, .updateLastInteraction]⟩
  | .sessionStart => ⟨.active, [.warnStaleSession]⟩
  | .sessionStop => ⟨.ended, [.updateLastInteraction]⟩
  | .compaction => ⟨.active, [.condenseIfFilesTouched, .updateLastInteraction]⟩

/-- `transitionFromEnded` from `state-machine.ts`. -/
def transitionFromEnded (event : SMEvent) (ctx : TransitionContext) : TransitionResult :=
  match event with
  | .turnStart => ⟨.active, [.clearEndedAt, .updateLastInteraction]⟩
  | .turnEnd => ⟨.ended, []⟩
  | .gitCommit =>
    if ctx.isRebaseInProgress then ⟨.ended, []⟩
    else if ctx.hasFilesTouched then
      ⟨.ended, [.condenseIfFilesTouched, .updateLastInteraction]⟩
    else
      ⟨.ended, [.discardIfNoFiles, .updateLastInteraction]⟩
  | .sessionStart => ⟨.idle, [.clearEndedAt]⟩
  | .sessionStop => ⟨.ended, []⟩
  | .compaction => ⟨.ended, []⟩

/-- `transition` from `state-machine.ts` (on the already-normalized `Phase`
type, `phaseFromString` is the identity there). -/
def transition (current : Phase) (event : SMEvent) (ctx : TransitionContext) :
    TransitionResult :=
  match current with
  | .idle => transitionFromIdle event ctx
  | .active => transitionFromActive event ctx
  | .ended => transitionFromEnded event ctx

/-! ## The action-application harness (`applyTransition`) -/

/-- `StateMachineState` from `state-machine.ts`; optional string fields become
`Option String`. -/
structure StateMachineState where
  sessionID : String
  phase : Phase
  filesTouched : List String
  lastInteractionTime : Option String
  endedAt : Option String
deriving DecidableEq, Repr

/-- Whether an action is dispatched to the `ActionHandler` (and may fail), as
opposed to the two in-place field mutations. -/
def SMAction.isHandlerBacked : SMAction → Bool
  | .condense | .condenseIfFilesTouched | .discardIfNoFiles | .warnStaleSession => true
  | .clearEndedAt | .updateLastInteraction => false

/-- Result of `applyTransition`: the mutated state, the first handler error
(`handlerErr` in the source), and — for reasoning about execution order — the
trace of handler-backed actions actually dispatched to the handler. -/
structure ApplyOutcome where
  state : StateMachineState
  handlerErr : Option String
  executed : List SMAction
deriving DecidableEq, Repr

/-- One iteration of the `for (const action of result.actions)` loop in
`applyTransition`. The handler is embedded as a function giving, per action,
the error it throws (`some e`) or success (`none`); a handler-backed action is
only invoked while `handlerErr` is still `none`, matching the
`if (!handlerErr)` guards in the source. -/
def applyStep (handler : SMAction → Option String) (now : String)
    (acc : ApplyOutcome) (a : SMAction) : ApplyOutcome :=
  match a with
  | .updateLastInteraction =>
    { acc with state := { acc.state with lastInteractionTime := some now } }
  | .clearEndedAt =>
    { acc with state := { acc.state with endedAt := none } }
  | a =>
    match acc.handlerErr with
    | some _ => acc
    | none => { acc with handlerErr := handler a, executed := acc.executed ++ [a] }

/-- `applyTransition` from `state-machine.ts`: sets `state.phase` to the new
phase, then folds the action loop over the action list. `now` stands for the
`new Date().toISOString()` timestamp. -/
def applyTransition (state : StateMachineState) (result : TransitionResult)
    (handler : SMAction → Option String) (now : String) : ApplyOutcome :=
  result.actions.foldl (applyStep handler now)
    ⟨{ state with phase := result.newPhase }, none, []⟩

/-- The handler-backed actions the loop dispatches, in order: all of them up to
and including the first one on which the handler throws. -/
def handlerActionsRun (handler : SMAction → Option String) : List SMAction → List SMAction
  | [] => []
  | a :: rest =>
    match handler a with
    | some _ => [a]
    | none => a :: handlerActionsRun handler rest

/-- The first error the handler throws on a list of handler-backed actions. -/
def firstHandlerError (handler : SMAction → Option String) : List SMAction → Option String
  | [] => none
  | a :: rest =>
    match handler a with
    | some e => some e
    | none => firstHandlerError handler rest

/-! ### Loop invariants of the action-application fold -/

theorem applyStep_phase (handler : SMAction → Option String) (now : String)
    (acc : ApplyOutcome) (a : SMAction) :
    (applyStep handler now acc a).state.phase = acc.state.phase := by
  cases a <;> simp [applyStep] <;> cases acc.handlerErr <;> rfl

theorem foldl_applyStep_phase (handler : SMAction → Option String) (now : String)
    (l : List SMAction) (acc : ApplyOutcome) :
    (l.foldl (applyStep handler now) acc).state.phase = acc.state.phase := by
  induction l generalizing acc with
  | nil => rfl
  | cons a rest ih => rw [List.foldl_cons, ih, applyStep_phase]

theorem foldl_applyStep_lastInteraction (handler : SMAction → Option String)
    (now : String) (l : List SMAction) (acc : ApplyOutcome) :
    (l.foldl (applyStep handler now) acc).state.lastInteractionTime =
      (if SMAction.updateLastInteraction ∈ l then some now
       else acc.state.lastInteractionTime) := by
  induction l generalizing acc with
  | nil => rfl
  | cons a rest ih =>
    rw [List.foldl_cons, ih]
    by_cases hmem : SMAction.updateLastInteraction ∈ rest
    · simp [hmem]
    · cases a <;> simp [hmem, applyStep] <;> cases acc.handlerErr <;> rfl

theorem foldl_applyStep_endedAt (handler : SMAction → Option String)
    (now : String) (l : List SMAction) (acc : ApplyOutcome) :
    (l.foldl (applyStep handler now) acc).state.endedAt =
      (if SMAction.clearEndedAt ∈ l then none else acc.state.endedAt) := by
  induction l generalizing acc with
  | nil => rfl
  | cons a rest ih =>
    rw [List.foldl_cons, ih]
    by_cases hmem : SMAction.clearEndedAt ∈ rest
    · simp [hmem]
    · cases a <;> simp [hmem, applyStep] <;> cases acc.handlerErr <;> rfl

theorem foldl_applyStep_of_err (handler : SMAction → Option String)
    (now : String) (l : List SMAction) (acc : ApplyOutcome) (e : String)
    (herr : acc.handlerErr = some e) :
    (l.foldl (applyStep handler now) acc).handlerErr = some e ∧
      (l.foldl (applyStep handler now) acc).executed = acc.executed := by
  induction l generalizing acc with
  | nil => exact ⟨herr, rfl⟩
  | cons a rest ih =>
    rw [List.foldl_cons]
    have hstep : (applyStep handler now acc a).handlerErr = some e ∧
        (applyStep handler now acc a).executed = acc.executed := by
      cases a <;> simp [applyStep, herr]
    obtain ⟨h1, h2⟩ := ih (applyStep handler now acc a) hstep.1
    exact ⟨h1, h2.trans hstep.2⟩

theorem foldl_applyStep_of_no_err (handler : SMAction → Option String)
    (now : String) (l : List SMAction) (acc : ApplyOutcome)
    (herr : acc.handlerErr = none) :
    (l.foldl (applyStep handler now) acc).handlerErr =
      firstHandlerError handler (l.filter (·.isHandlerBacked)) ∧
    (l.foldl (applyStep handler now) acc).executed =
      acc.executed ++ handlerActionsRun handler (l.filter (·.isHandlerBacked)) := by
  induction l generalizing acc with
  | nil => simpa [firstHandlerError, handlerActionsRun] using herr
  | cons a rest ih =>
    rw [List.foldl_cons]
    by_cases hb : a.isHandlerBacked = true
    · have hstep : applyStep handler now acc a =
          { acc with handlerErr := handler a, executed := acc.executed ++ [a] } := by
        cases a <;> simp_all [applyStep, SMAction.isHandlerBacked]
      rw [hstep]
      rcases he : handler a with _ | e
      · obtain ⟨h1, h2⟩ :=
          ih { acc with handlerErr := handler a, executed := acc.executed ++ [a] }
            (by simp [he])
        rw [he] at h1 h2
        rw [h1, h2]
        simp [List.filter_cons, hb, firstHandlerError, handlerActionsRun, he]
      · obtain ⟨h1, h2⟩ := foldl_applyStep_of_err handler now rest
          { acc with handlerErr := handler a, executed := acc.executed ++ [a] } e
          (by simp [he])
        rw [he] at h1 h2
        rw [h1, h2]
        simp [List.filter_cons, hb, firstHandlerError, handlerActionsRun, he]
    · have hstep1 : (applyStep handler now acc a).handlerErr = acc.handlerErr := by
        cases a <;> simp_all [applyStep, SMAction.isHandlerBacked]
      have hstep2 : (applyStep handler now acc a).executed = acc.executed := by
        cases a <;> simp_all [applyStep, SMAction.isHandlerBacked]
      obtain ⟨h1, h2⟩ := ih (applyStep handler now acc a) (hstep1.trans herr)
      rw [h1, h2, hstep2]
      simp [List.filter_cons, hb]

/-! ### Claims about the state machine -/

/-- C5: For every transition context with `isRebaseInProgress = false`,
`transition ended GitCommit ctx` stays `ended` with actions
`[CondenseIfFilesTouched, UpdateLastInteraction]` when `hasFilesTouched` and
`[DiscardIfNoFiles, UpdateLastInteraction]` otherwise. -/
theorem C5_transition_ended_gitCommit (ctx : TransitionContext)
    (h : ctx.isRebaseInProgress = false) :
    transition .ended .gitCommit ctx =
      (if ctx.hasFilesTouched then
        ⟨.ended, [.condenseIfFilesTouched, .updateLastInteraction]⟩
       else ⟨.ended, [.discardIfNoFiles, .updateLastInteraction]⟩) := by
  cases hf : ctx.hasFilesTouched <;> simp [transition, transitionFromEnded, h, hf]

/-- Witness for C5, at both values of `hasFilesTouched`. -/
theorem C5_transition_ended_gitCommit_witness :
    transition .ended .gitCommit ⟨true, false⟩ =
      ⟨.ended, [.condenseIfFilesTouched, .updateLastInteraction]⟩ ∧
    transition .ended .gitCommit ⟨false, false⟩ =
      ⟨.ended, [.discardIfNoFiles, .updateLastInteraction]⟩ :=
  ⟨(C5_transition_ended_gitCommit ⟨true, false⟩ rfl).trans (by decide),
   (C5_transition_ended_gitCommit ⟨false, false⟩ rfl).trans (by decide)⟩

/-- C6: For `p ∈ {idle, active}` and any context with
`isRebaseInProgress = true`, `transition p GitCommit ctx` keeps the phase and
returns an empty action list. -/
theorem C6_gitCommit_during_rebase_no_actions (p : Phase) (ctx : TransitionContext)
    (hp : p = .idle ∨ p = .active) (h : ctx.isRebaseInProgress = true) :
    transition p .gitCommit ctx = ⟨p, []⟩ := by
  rcases hp with rfl | rfl <;>
    simp [transition, transitionFromIdle, transitionFromActive, h]

/-- Witness for C6 at `p = idle`. -/
theorem C6_gitCommit_during_rebase_no_actions_witness :
    transition .idle .gitCommit ⟨false, true⟩ = ⟨.idle, []⟩ :=
  C6_gitCommit_during_rebase_no_actions .idle ⟨false, true⟩ (Or.inl rfl) rfl

/-- C7: `applyTransition` dispatches the handler-backed actions in list order,
stopping after the first one that throws (its trace is exactly the
handler-backed actions up to and including the first failing one); the first
error is what it returns; and the `UpdateLastInteraction` / `ClearEndedAt`
field mutations are applied whether or not a handler action failed. -/
theorem C7_applyTransition_stops_at_first_handler_error
    (state : StateMachineState) (result : TransitionResult)
    (handler : SMAction → Option String) (now : String) :
    (applyTransition state result handler now).executed =
        handlerActionsRun handler (result.actions.filter (·.isHandlerBacked)) ∧
    (applyTransition state result handler now).handlerErr =
        firstHandlerError handler (result.actions.filter (·.isHandlerBacked)) ∧
    (applyTransition state result handler now).state.lastInteractionTime =
        (if SMAction.updateLastInteraction ∈ result.actions then some now
         else state.lastInteractionTime) ∧
    (applyTransition state result handler now).state.endedAt =
        (if SMAction.clearEndedAt ∈ result.actions then none else state.endedAt) := by
  obtain ⟨h1, h2⟩ := foldl_applyStep_of_no_err handler now result.actions
    ⟨{ state with phase := result.newPhase }, none, []⟩ rfl
  refine ⟨by simpa [applyTransition] using h2, by simpa [applyTransition] using h1, ?_, ?_⟩
  · simpa [applyTransition] using
      foldl_applyStep_lastInteraction handler now result.actions
        ⟨{ state with phase := result.newPhase }, none, []⟩
  · simpa [applyTransition] using
      foldl_applyStep_endedAt handler now result.actions
        ⟨{ state with phase := result.newPhase }, none, []⟩

/-- C10: `applyTransition` installs the new phase up front and never rolls
back: whatever the handler does, the returned state has
`phase = result.newPhase`, and the `UpdateLastInteraction` / `ClearEndedAt`
mutations take effect exactly when those actions appear anywhere in the list
(in particular even after a failing handler action). -/
theorem C10_applyTransition_phase_set_without_rollback
    (state : StateMachineState) (result : TransitionResult)
    (handler : SMAction → Option String) (now : String) :
    (applyTransition state result handler now).state.phase = result.newPhase ∧
    (applyTransition state result handler now).state.lastInteractionTime =
        (if SMAction.updateLastInteraction ∈ result.actions then some now
         else state.lastInteractionTime) ∧
    (applyTransition state result handler now).state.endedAt =
        (if SMAction.clearEndedAt ∈ result.actions then none else state.endedAt) := by
  refine ⟨?_, ?_, ?_⟩
  · simpa [applyTransition] using
      foldl_applyStep_phase handler now result.actions
        ⟨{ state with phase := result.newPhase }, none, []⟩
  · simpa [applyTransition] using
      foldl_applyStep_lastInteraction handler now result.actions
        ⟨{ state with phase := result.newPhase }, none, []⟩
  · simpa [applyTransition] using
      foldl_applyStep_endedAt handler now result.actions
        ⟨{ state with phase := result.newPhase }, none, []⟩

/-! ## Attribution engine: `diffLines` and `countLines` -/

/-- JS `s.split("\n")` on the underlying character list: maximal chunks
between newline characters (`"".split` gives `[""]`, a terminal newline
yields a trailing empty chunk). -/
def splitNlChars : List Char → List (List Char)
  | [] => [[]]
  | c :: cs =>
    if c = '\n' then [] :: splitNlChars cs
    else
      match splitNlChars cs with
      | [] => [[c]]
      | l :: ls => (c :: l) :: ls

/-- JS `s.split("\n")` as a list of strings. -/
def splitNl (s : String) : List String :=
  (splitNlChars s.data).map (fun l => String.mk l)

/-- JS `s.endsWith("\n")`. -/
def endsWithNewline (s : String) : Bool :=
  s.data.getLast? = some '\n'

/-- `countLines` from `src/utils/string-utils.ts`: empty string has 0 lines;
otherwise the number of newline characters, plus one when the string does not
end in a newline. -/
def countLines (content : String) : Nat :=
  if content = "" then 0
  else content.data.count '\n' + (if endsWithNewline content then 0 else 1)

/-- The split-then-`pop()` preprocessing in `diffLines`: split on newline and
drop the trailing empty element when the content ends with a newline. -/
def splitDropTrailing (s : String) : List String :=
  let ls := splitNl s
  if ls.getLast? = some "" ∧ endsWithNewline s then ls.dropLast else ls

/-- The matching loop of `diffLines`: walk the new lines, counting a line as
unchanged when `old` still has remaining multiplicity for it (`oldCount` is
the `oldSet` map, `matched` the `matchedOld` map, `unchanged` the counter). -/
def unchangedLoop (oldCount : String → Nat) :
    List String → (String → Nat) → Nat → Nat
  | [], _, unchanged => unchanged
  | line :: rest, matched, unchanged =>
    if matched line < oldCount line then
      unchangedLoop oldCount rest
        (fun s => if s = line then matched s + 1 else matched s) (unchanged + 1)
    else
      unchangedLoop oldCount rest matched unchanged

/-- `diffLines` from the attribution module: returns
`(unchanged, added, removed)`. -/
def diffLines (oldContent newContent : String) : Nat × Nat × Nat :=
  if oldContent = newContent then (countLines newContent, 0, 0)
  else if oldContent = "" then (0, countLines newContent, 0)
  else if newContent = "" then (0, 0, countLines oldContent)
  else
    let oldLines := splitDropTrailing oldContent
    let newLines := splitDropTrailing newContent
    let unchanged := unchangedLoop (fun s => oldLines.count s) newLines (fun _ => 0) 0
    (unchanged, newLines.length - unchanged, oldLines.length - unchanged)

/-- Spec-side line list of a string: the empty string has no lines (the
codebase's convention, cf. `countLines "" = 0`); otherwise split on newline
dropping the trailing empty element of a terminal newline. -/
def lineList (s : String) : List String :=
  if s = "" then [] else splitDropTrailing s

/-- Size of the multiset intersection of two line lists. -/
def multisetInterCard (a b : List String) : Nat :=
  ((a : Multiset String) ∩ (b : Multiset String)).card

/-! ### Lemmas about line splitting -/

theorem splitNlChars_ne_nil (cs : List Char) : splitNlChars cs ≠ [] := by
  match cs with
  | [] => simp [splitNlChars]
  | c :: cs =>
    rw [splitNlChars]
    split
    · simp
    · split <;> simp

theorem splitNlChars_length (cs : List Char) :
    (splitNlChars cs).length = cs.count '\n' + 1 := by
  induction cs with
  | nil => rfl
  | cons c cs ih =>
    rw [splitNlChars]
    by_cases hc : c = '\n'
    · subst hc
      simp [List.count_cons, ih]
    · rcases hsp : splitNlChars cs with _ | ⟨l, ls⟩
      · exact absurd hsp (splitNlChars_ne_nil cs)
      · rw [hsp] at ih
        simp only [hc, if_neg, List.count_cons, if_false]
        simpa [hc] using ih

theorem splitNlChars_getLast_of_newline (cs : List Char)
    (h : cs.getLast? = some '\n') : (splitNlChars cs).getLast? = some [] := by
  induction cs with
  | nil => simp at h
  | cons c cs ih =>
    rcases hcs : cs with _ | ⟨c', cs'⟩
    · subst hcs
      simp only [List.getLast?_singleton, Option.some.injEq] at h
      subst h
      rfl
    · rw [hcs] at h ih
      rw [List.getLast?_cons_cons] at h
      have hlast := ih h
      rw [splitNlChars]
      rcases hsp : splitNlChars (c' :: cs') with _ | ⟨l, ls⟩
      · exact absurd hsp (splitNlChars_ne_nil _)
      · rw [hsp] at hlast
        by_cases hc : c = '\n'
        · subst hc
          rw [if_pos rfl, List.getLast?_cons_cons]
          exact hlast
        · simp only [if_neg hc]
          rcases hls : ls with _ | ⟨l', ls'⟩
          · rw [hls] at hsp hlast
            have hcount : (c' :: cs').count '\n' + 1 = 1 := by
              rw [← splitNlChars_length, hsp]
              rfl
            have hmem : '\n' ∈ c' :: cs' := List.mem_of_mem_getLast? h
            have : 0 < (c' :: cs').count '\n' := List.count_pos_iff.mpr hmem
            omega
          · rw [hls] at hlast
            rw [List.getLast?_cons_cons]
            rwa [List.getLast?_cons_cons] at hlast

theorem lineList_length (s : String) : (lineList s).length = countLines s := by
  rcases eq_or_ne s "" with rfl | hs
  · rfl
  · rw [lineList, if_neg hs, countLines, if_neg hs, splitDropTrailing]
    have hlen : (splitNl s).length = s.data.count '\n' + 1 := by
      rw [splitNl, List.length_map, splitNlChars_length]
    by_cases hnl : endsWithNewline s = true
    · have hlast : (splitNl s).getLast? = some "" := by
        rw [splitNl, List.getLast?_map]
        rw [endsWithNewline, decide_eq_true_eq] at hnl
        rw [splitNlChars_getLast_of_newline s.data hnl]
        rfl
      rw [if_pos ⟨hlast, hnl⟩]
      simp [List.length_dropLast, hlen, hnl]
    · rw [if_neg (by simp [hnl])]
      simp only [hnl, if_false, hlen]
      simp [Bool.not_eq_true] at hnl
      simp [hnl]

/-! ### The matching loop computes the multiset intersection -/

theorem unchangedLoop_bagInter (newL : List String) :
    ∀ (oldL : List String) (oldCount matched : String → Nat) (u : Nat),
      (∀ s, oldCount s - matched s = oldL.count s) →
      (∀ s, matched s ≤ oldCount s) →
      unchangedLoop oldCount newL matched u = u + (newL.bagInter oldL).length := by
  induction newL with
  | nil =>
    intro oldL oldCount matched u _ _
    simp [unchangedLoop, List.nil_bagInter]
  | cons line rest ih =>
    intro oldL oldCount matched u hcap hle
    rw [unchangedLoop]
    by_cases hpos : matched line < oldCount line
    · have hmem : line ∈ oldL := by
        rw [← List.count_pos_iff, ← hcap line]
        omega
      rw [if_pos hpos, List.cons_bagInter_of_pos _ hmem]
      rw [ih (oldL.erase line) oldCount _ (u + 1) ?_ ?_]
      · simp [Nat.add_assoc, Nat.add_comm 1]
      · intro s
        by_cases hs : s = line
        · subst hs
          rw [List.count_erase_self, ← hcap s]
          simp only [eq_self_iff_true, if_true]
          omega
        · rw [List.count_erase_of_ne hs, ← hcap s]
          simp [hs]
      · intro s
        by_cases hs : s = line
        · subst hs
          simpa using hpos
        · simpa [hs] using hle s
    · have hnmem : line ∉ oldL := by
        rw [← List.count_pos_iff, ← hcap line]
        have := hle line
        omega
      rw [if_neg hpos, List.cons_bagInter_of_neg _ hnmem]
      exact ih oldL oldCount matched u hcap hle

theorem unchangedLoop_eq_interCard (oldL newL : List String) :
    unchangedLoop (fun s => oldL.count s) newL (fun _ => 0) 0 =
      multisetInterCard oldL newL := by
  rw [unchangedLoop_bagInter newL oldL (fun s => oldL.count s) (fun _ => 0) 0
      (fun s => by simp) (fun s => Nat.zero_le _)]
  simp only [multisetInterCard]
  rw [Multiset.inter_comm, Multiset.coe_inter, Multiset.coe_card]
  simp

/-- C4: `diffLines old new` returns `(unchanged, added, removed)` where
`unchanged` is the size of the multiset intersection of the two line lists
(split on newline, dropping the trailing empty element of a terminal newline;
the empty string has no lines, matching `countLines "" = 0`),
`added = (count of new's lines) - unchanged`,
`removed = (count of old's lines) - unchanged`; in particular
`diffLines s s = (countLines s, 0, 0)`, `diffLines "" s = (0, countLines s, 0)`
and `diffLines s "" = (0, 0, countLines s)`. -/
theorem C4_diffLines_multiset_intersection (old new : String) :
    diffLines old new =
      (multisetInterCard (lineList old) (lineList new),
       (lineList new).length - multisetInterCard (lineList old) (lineList new),
       (lineList old).length - multisetInterCard (lineList old) (lineList new)) ∧
    diffLines new new = (countLines new, 0, 0) ∧
    diffLines "" new = (0, countLines new, 0) ∧
    diffLines new "" = (0, 0, countLines new) := by
  have hself : ∀ s : String, diffLines s s = (countLines s, 0, 0) := by
    intro s
    rw [diffLines, if_pos rfl]
  have hleft : ∀ s : String, diffLines "" s = (0, countLines s, 0) := by
    intro s
    rcases eq_or_ne s "" with rfl | hs
    · rw [hself ""]
      rfl
    · rw [diffLines, if_neg (Ne.symm hs), if_pos rfl]
  have hright : ∀ s : String, diffLines s "" = (0, 0, countLines s) := by
    intro s
    rcases eq_or_ne s "" with rfl | hs
    · rw [hself ""]
      rfl
    · rw [diffLines, if_neg hs, if_neg hs, if_pos rfl]
  refine ⟨?_, hself new, hleft new, hright new⟩
  rcases eq_or_ne old new with rfl | hne
  · have hcard : multisetInterCard (lineList old) (lineList old) =
        (lineList old).length := by
      simp only [multisetInterCard, ← Multiset.inf_eq_inter, inf_idem,
        Multiset.coe_card]
    rw [hself old, hcard, lineList_length]
    simp
  · rcases eq_or_ne old "" with rfl | ho
    · have hcard : multisetInterCard (lineList "") (lineList new) = 0 := by
        simp [multisetInterCard, lineList]
      rw [hleft new, hcard]
      simp [lineList_length, countLines]
    · rcases eq_or_ne new "" with rfl | hn
      · have hcard : multisetInterCard (lineList old) (lineList "") = 0 := by
          simp [multisetInterCard, lineList]
        rw [hright old, hcard]
        simp [lineList_length, countLines]
      · simp only [diffLines, if_neg hne, if_neg ho, if_neg hn]
        simp only [lineList, if_neg ho, if_neg hn]
        rw [unchangedLoop_eq_interCard]

/-! ## Content-overlap detector (`src/strategy`) -/

/-- JS `s.trim()`: strip leading and trailing whitespace characters. -/
def trimString (s : String) : String :=
  String.mk (((s.data.dropWhile Char.isWhitespace).reverse.dropWhile
    Char.isWhitespace).reverse)

/-- `extractSignificantLines`: the set of trimmed lines of length ≥ 10 (JS
`Set` becomes a deduplicated list; every use below is order-insensitive).
JS `length` is modelled by codepoint length. -/
def extractSignificantLines (content : String) : List String :=
  ((((splitNl content).map trimString)).filter (fun t => 10 ≤ t.length)).dedup

/-- The match-counting loop of `hasSignificantContentOverlap`, with its early
exit once `matchCount` reaches `requiredMatches`. -/
def matchLoop (shadowLines : List String) (required : Nat) :
    List String → Nat → Bool
  | [], _ => false
  | line :: rest, matchCount =>
    if line ∈ shadowLines then
      if required ≤ matchCount + 1 then true
      else matchLoop shadowLines required rest (matchCount + 1)
    else matchLoop shadowLines required rest matchCount

/-- `hasSignificantContentOverlap(stagedContent, shadowContent)` from
`src/strategy`. -/
def hasSignificantContentOverlap (stagedContent shadowContent : String) : Bool :=
  let shadowLines := extractSignificantLines shadowContent
  let stagedLines := extractSignificantLines stagedContent
  if shadowLines.length = 0 ∨ stagedLines.length = 0 then false
  else
    let isVerySmallFile := shadowLines.length < 2 ∨ stagedLines.length < 2
    let requiredMatches := if isVerySmallFile then 1 else 2
    matchLoop shadowLines requiredMatches stagedLines 0

/-- Number of significant (trimmed, length ≥ 10) distinct lines. -/
def significantLineCount (content : String) : Nat :=
  (extractSignificantLines content).length

/-- Number of distinct significant lines shared by the two contents. -/
def sharedSignificantCount (a b : String) : Nat :=
  ((extractSignificantLines a).filter
    (fun l => l ∈ extractSignificantLines b)).length

/-- `filesOverlapWithContent` from `src/strategy`, over the recursion on
`filesTouched`. The `gitSafe show` / `gitSafe rev-parse` results for the HEAD
commit, the parent commit and the shadow branch are embedded as partial maps
from repo path to content resp. blob hash (`none` = git reported the
path/ref missing). A `null` parent commit is `parent = none`. -/
def filesOverlapWithContent (shadow head : String → Option String)
    (parent : Option (String → Option String))
    (headHash shadowHash : String → Option String) :
    List String → Bool
  | [] => false
  | filePath :: rest =>
    match head filePath with
    | none =>
      match parent with
      | some p =>
        if (p filePath).isSome then true
        else filesOverlapWithContent shadow head (some p) headHash shadowHash rest
      | none => filesOverlapWithContent shadow head none headHash shadowHash rest
    | some headContent =>
      let isModified := match parent with
        | some p => (p filePath).isSome
        | none => false
      if isModified then true
      else
        match shadow filePath with
        | none => filesOverlapWithContent shadow head parent headHash shadowHash rest
        | some shadowContent =>
          let hashesMatch : Bool := match headHash filePath, shadowHash filePath with
            | some hh, some sh => trimString hh == trimString sh
            | _, _ => false
          if hashesMatch then true
          else if headContent ≠ "" ∧ shadowContent ≠ "" ∧
              hasSignificantContentOverlap headContent shadowContent then true
          else filesOverlapWithContent shadow head parent headHash shadowHash rest

/-! ### Claims about the overlap detector -/

theorem matchLoop_true_iff (shadowLines : List String) (required : Nat) :
    ∀ (rest : List String) (c : Nat), c < required →
      (matchLoop shadowLines required rest c = true ↔
        required ≤ c + (rest.filter (fun l => l ∈ shadowLines)).length) := by
  intro rest
  induction rest with
  | nil =>
    intro c hc
    simp [matchLoop]
    omega
  | cons line rest ih =>
    intro c hc
    rw [matchLoop]
    by_cases hmem : line ∈ shadowLines
    · rw [if_pos hmem]
      by_cases hreq : required ≤ c + 1
      · rw [if_pos hreq]
        constructor
        · intro _
          simp only [List.filter_cons, hmem, decide_True, if_true, List.length_cons]
          omega
        · intro _
          rfl
      · rw [if_neg hreq]
        rw [ih (c + 1) (by omega)]
        simp only [List.filter_cons, hmem, decide_True, if_true, List.length_cons]
        omega
    · rw [if_neg hmem]
      rw [ih c hc]
      simp [List.filter_cons, hmem]

/-- C9: `hasSignificantContentOverlap a b` is true iff at least 2 distinct
significant (trimmed, length ≥ 10) lines are shared (at least 1 when either
side has fewer than 2 significant lines); in particular it is false for two
copies of the boilerplate-only content consisting of an opening and a
closing brace line. -/
theorem C9_hasSignificantContentOverlap_iff (a b : String) :
    (hasSignificantContentOverlap a b = true ↔
      2 ≤ sharedSignificantCount a b ∨
        (1 ≤ sharedSignificantCount a b ∧
          (significantLineCount a < 2 ∨ significantLineCount b < 2))) ∧
    hasSignificantContentOverlap "\x7b\n\x7d\n" "\x7b\n\x7d\n" = false := by
  refine ⟨?_, by decide⟩
  rw [hasSignificantContentOverlap]
  simp only [sharedSignificantCount, significantLineCount]
  by_cases hz : (extractSignificantLines b).length = 0 ∨
      (extractSignificantLines a).length = 0
  · rw [if_pos hz]
    have hshared : ((extractSignificantLines a).filter
        (fun l => l ∈ extractSignificantLines b)).length = 0 := by
      rcases hz with hb | ha
      · rw [List.length_eq_zero] at hb
        simp [hb]
      · rw [List.length_eq_zero] at ha
        simp [ha]
    simp [hshared]
  · rw [if_neg hz]
    by_cases hsmall : (extractSignificantLines b).length < 2 ∨
        (extractSignificantLines a).length < 2
    · rw [if_pos hsmall]
      rw [matchLoop_true_iff _ 1 _ 0 (by omega)]
      push_neg at hz
      constructor
      · intro h
        right
        exact ⟨by omega, hsmall.symm⟩
      · rintro (h | ⟨h, _⟩) <;> omega
    · rw [if_neg hsmall]
      rw [matchLoop_true_iff _ 2 _ 0 (by omega)]
      push_neg at hsmall
      constructor
      · intro h
        left
        omega
      · rintro (h | ⟨h, hlt⟩)
        · omega
        · rcases hlt with hlt | hlt <;> omega

/-- C8: with a non-null parent, if any `filesTouched` entry exists in the
parent commit then `filesOverlapWithContent` returns `true`, regardless of
every content and hash. -/
theorem C8_filesOverlap_modified_file_always_true
    (shadow head : String → Option String) (p : String → Option String)
    (headHash shadowHash : String → Option String) (files : List String)
    (f : String) (hf : f ∈ files) (hp : (p f).isSome = true) :
    filesOverlapWithContent shadow head (some p) headHash shadowHash files = true := by
  induction files with
  | nil => simp at hf
  | cons a rest ih =>
    rcases List.mem_cons.mp hf with rfl | hmem
    · rcases hh : head f with _ | hc
      · rw [filesOverlapWithContent, hh]
        simp [hp]
      · rw [filesOverlapWithContent, hh]
        simp [hp]
    · have hrec := ih hmem
      rcases hh : head a with _ | hc
      · rw [filesOverlapWithContent, hh]
        by_cases hpa : (p a).isSome
        · simp [hpa]
        · simp only [hpa, if_false]
          exact hrec
      · rw [filesOverlapWithContent, hh]
        by_cases hpa : (p a).isSome
        · simp [hpa]
        · simp only [hpa, if_false]
          rcases hs : shadow a with _ | sc
          · exact hrec
          · simp [hrec]

/-- Witness for C8 at a one-file list whose entry exists in the parent. -/
theorem C8_filesOverlap_modified_file_always_true_witness :
    filesOverlapWithContent (fun _ => none) (fun _ => none)
      (some (fun _ => some "base content")) (fun _ => none) (fun _ => none)
      ["a.txt"] = true :=
  C8_filesOverlap_modified_file_always_true (fun _ => none) (fun _ => none)
    (fun _ => some "base content") (fun _ => none) (fun _ => none)
    ["a.txt"] "a.txt" (List.mem_singleton.mpr rfl) rfl

/-! ## Attribution engine: commit-time attribution -/

/-- `PromptAttribution` from `src/strategy/types.ts`; the `userAddedPerFile`
object becomes an association list (its producers give it unique keys). -/
structure PromptAttribution where
  checkpointNumber : Nat
  userLinesAdded : Nat
  userLinesRemoved : Nat
  agentLinesAdded : Nat
  agentLinesRemoved : Nat
  userAddedPerFile : List (String × Nat)
deriving DecidableEq, Repr

/-- `InitialAttribution` from `src/types.ts`; the integer-valued counters as
`Int` (JS subtraction can go below zero mid-computation), the percentage as
an exact rational. -/
structure InitialAttribution where
  calculatedAt : String
  agentLines : Int
  humanAdded : Int
  humanModified : Int
  humanRemoved : Int
  totalCommitted : Int
  agentPercentage : Rat
deriving DecidableEq, Repr

/-- A `Map<string, string>` of file contents, as an association list (first
occurrence of a key wins, matching `Map` construction order). -/
abbrev FileMap := List (String × String)

/-- `map.get(k)` on a `FileMap`. -/
def fmGet (m : FileMap) (k : String) : Option String :=
  (m.find? (fun e => e.1 == k)).map (fun e => e.2)

/-- `map.get(k) ?? ''` on a `FileMap`. -/
def fmGetD (m : FileMap) (k : String) : String :=
  (fmGet m k).getD ""

/-- The key set of a `FileMap`, each key once, for `for ... of map` loops. -/
def fmKeys (m : FileMap) : List String :=
  (m.map Prod.fst).dedup

/-- `getAllChangedFiles` from the attribution module: keys of `tree1` whose
value differs from (or is missing in) `tree2`, plus keys of `tree2` absent
from `tree1`. -/
def getAllChangedFiles (tree1 tree2 : FileMap) : List String :=
  (fmKeys tree1).filter (fun p => !(fmGet tree2 p == fmGet tree1 p)) ++
    (fmKeys tree2).filter (fun p => (fmGet tree1 p).isNone)

/-- `map.set(k, (map.get(k) ?? 0) + v)` on an association list with unique
keys. -/
def addToEntry (m : List (String × Nat)) (k : String) (v : Nat) :
    List (String × Nat) :=
  if m.any (fun e => e.1 == k) then
    m.map (fun e => if e.1 == k then (e.1, e.2 + v) else e)
  else m ++ [(k, v)]

/-- `map.set(k, v)` on an association list with unique keys. -/
def setEntry (m : List (String × Nat)) (k : String) (v : Nat) :
    List (String × Nat) :=
  if m.any (fun e => e.1 == k) then
    m.map (fun e => if e.1 == k then (e.1, v) else e)
  else m ++ [(k, v)]

/-- `map.get(k) ?? 0` on an association list. -/
def lookupNat (m : List (String × Nat)) (k : String) : Nat :=
  ((m.find? (fun e => e.1 == k)).map (fun e => e.2)).getD 0

/-- The `for (const pa of promptAttributions)` loop: sums `userLinesRemoved`
and accumulates `userAddedPerFile` into one map. -/
def accumulateUserEdits (pas : List PromptAttribution) :
    Nat × List (String × Nat) :=
  pas.foldl (fun acc pa =>
    (acc.1 + pa.userLinesRemoved,
     pa.userAddedPerFile.foldl (fun m e => addToEntry m e.1 e.2) acc.2))
    (0, [])

/-- Accumulators of the `for (const filePath of filesTouched)` loop. -/
structure PerFileStats where
  totalAgentAndUserWork : Nat
  postCheckpointUserAdded : Nat
  postCheckpointUserRemoved : Nat
  postCheckpointUserRemovedPerFile : List (String × Nat)
deriving DecidableEq, Repr

/-- The per-agent-file loop of `calculateAttributionWithAccumulated`:
`base → shadow` additions (work in progress) and `shadow → head` additions and
removals (post-checkpoint human edits), plus the per-file removed map. -/
def perFileLoop (baseFiles shadowFiles headFiles : FileMap) :
    List String → PerFileStats :=
  List.foldl (fun st filePath =>
    let baseContent := fmGetD baseFiles filePath
    let shadowContent := fmGetD shadowFiles filePath
    let headContent := fmGetD headFiles filePath
    let work := (diffLines baseContent shadowContent).2.1
    let post := diffLines shadowContent headContent
    { totalAgentAndUserWork := st.totalAgentAndUserWork + work
      postCheckpointUserAdded := st.postCheckpointUserAdded + post.2.1
      postCheckpointUserRemoved := st.postCheckpointUserRemoved + post.2.2
      postCheckpointUserRemovedPerFile :=
        if 0 < post.2.2 then
          setEntry st.postCheckpointUserRemovedPerFile filePath post.2.2
        else st.postCheckpointUserRemovedPerFile })
    ⟨0, 0, 0, []⟩

/-- `committedNonAgentSet`: changed files between base and head that the agent
did not touch. -/
def committedNonAgentFilesOf (baseFiles headFiles : FileMap)
    (filesTouched : List String) : List String :=
  (getAllChangedFiles baseFiles headFiles).filter
    (fun f => !(decide (f ∈ filesTouched)))

/-- `allUserEditsToNonAgentFiles`: `base → head` additions summed over the
changed files the agent did not touch. -/
def nonAgentUserAddedOf (baseFiles headFiles : FileMap)
    (filesTouched : List String) : Nat :=
  (committedNonAgentFilesOf baseFiles headFiles filesTouched).foldl
    (fun acc f => acc + (diffLines (fmGetD baseFiles f) (fmGetD headFiles f)).2.1) 0

/-- The loop splitting the accumulated per-file additions into the agent-file
part and the committed-non-agent-file part (in that priority order). -/
def splitAccumulated (accMap : List (String × Nat)) (filesTouched : List String)
    (committedNonAgent : List String) : Nat × Nat :=
  accMap.foldl (fun acc e =>
    if e.1 ∈ filesTouched then (acc.1 + e.2, acc.2)
    else if e.1 ∈ committedNonAgent then (acc.1, acc.2 + e.2)
    else acc) (0, 0)

/-- JS `Math.max(a, b)` on integers, written so the kernel can evaluate it. -/
def jsMaxInt (a b : Int) : Int := if a ≤ b then b else a

/-- JS `Math.min(a, b)` on integers, written so the kernel can evaluate it. -/
def jsMinInt (a b : Int) : Int := if a ≤ b then a else b

/-- JS `Math.min(a, b)` on naturals, written so the kernel can evaluate it. -/
def jsMinNat (a b : Nat) : Nat := if a ≤ b then a else b

theorem jsMaxInt_eq (a b : Int) : jsMaxInt a b = max a b := (max_def a b).symm

theorem jsMinInt_eq (a b : Int) : jsMinInt a b = min a b := (min_def a b).symm

theorem jsMinNat_eq (a b : Nat) : jsMinNat a b = min a b := (min_def a b).symm

/-- `estimateUserSelfModifications` from the attribution module: LIFO
heuristic, per file `min(removed, user-added)`. -/
def estimateUserSelfModifications
    (accumulatedUserAddedPerFile postCheckpointUserRemovedPerFile :
      List (String × Nat)) : Nat :=
  postCheckpointUserRemovedPerFile.foldl (fun selfModified e =>
    selfModified + jsMinNat e.2 (lookupNat accumulatedUserAddedPerFile e.1)) 0

/-- Steps 4–6 of `calculateAttributionWithAccumulated` (the final split),
parametrized by the loop aggregates. -/
def attributionFinalSplit (calculatedAt : String)
    (totalAgentAndUserWork postCheckpointUserAdded postCheckpointUserRemoved
     accumulatedUserRemoved accumulatedToAgentFiles
     accumulatedToCommittedNonAgentFiles allUserEditsToNonAgentFiles
     userSelfModified : Nat) : InitialAttribution :=
  let totalAgentAdded : Int :=
    jsMaxInt 0 ((totalAgentAndUserWork : Int) - (accumulatedToAgentFiles : Int))
  let postToNonAgentFiles : Int :=
    jsMaxInt 0 ((allUserEditsToNonAgentFiles : Int) -
      (accumulatedToCommittedNonAgentFiles : Int))
  let relevantAccumulatedUser : Int :=
    (accumulatedToAgentFiles : Int) + (accumulatedToCommittedNonAgentFiles : Int)
  let totalUserAdded : Int :=
    relevantAccumulatedUser + (postCheckpointUserAdded : Int) + postToNonAgentFiles
  let totalUserRemoved : Int :=
    (accumulatedUserRemoved : Int) + (postCheckpointUserRemoved : Int)
  let totalHumanModified : Int := jsMinInt totalUserAdded totalUserRemoved
  let humanModifiedAgent : Int :=
    jsMaxInt 0 (totalHumanModified - (userSelfModified : Int))
  let pureUserAdded : Int := totalUserAdded - totalHumanModified
  let pureUserRemoved : Int := totalUserRemoved - totalHumanModified
  let totalCommittedInit : Int := totalAgentAdded + pureUserAdded - pureUserRemoved
  let totalCommitted : Int :=
    if totalCommittedInit ≤ 0 then jsMaxInt 0 totalAgentAdded else totalCommittedInit
  let agentLinesInCommit : Int :=
    jsMaxInt 0 (totalAgentAdded - pureUserRemoved - humanModifiedAgent)
  let agentPercentage : Rat :=
    if 0 < totalCommitted then Rat.divInt (agentLinesInCommit * 100) totalCommitted
    else 0
  { calculatedAt := calculatedAt
    agentLines := agentLinesInCommit
    humanAdded := pureUserAdded
    humanModified := totalHumanModified
    humanRemoved := pureUserRemoved
    totalCommitted := totalCommitted
    agentPercentage := agentPercentage }

/-- `calculateAttributionWithAccumulated` from the attribution module:
`null` for an empty `filesTouched`, otherwise the final split applied to the
loop aggregates. `calculatedAt` stands for `new Date().toISOString()`. -/
def calculateAttributionWithAccumulated (calculatedAt : String)
    (baseFiles shadowFiles headFiles : FileMap) (filesTouched : List String)
    (promptAttributions : List PromptAttribution) : Option InitialAttribution :=
  if filesTouched.length = 0 then none
  else
    let accum := accumulateUserEdits promptAttributions
    let stats := perFileLoop baseFiles shadowFiles headFiles filesTouched
    let committedNonAgent :=
      committedNonAgentFilesOf baseFiles headFiles filesTouched
    let accSplit := splitAccumulated accum.2 filesTouched committedNonAgent
    some (attributionFinalSplit calculatedAt
      stats.totalAgentAndUserWork stats.postCheckpointUserAdded
      stats.postCheckpointUserRemoved accum.1 accSplit.1 accSplit.2
      (nonAgentUserAddedOf baseFiles headFiles filesTouched)
      (estimateUserSelfModifications accum.2
        stats.postCheckpointUserRemovedPerFile))

/-! ### Rational helper facts for the percentage bounds -/

theorem pct_nonneg (aL tc : Int) (h0 : 0 ≤ aL) :
    0 ≤ (if 0 < tc then Rat.divInt (aL * 100) tc else 0) := by
  split
  case isTrue htc =>
    rw [Rat.divInt_eq_div]
    apply div_nonneg
    · have h2 : (0 : Int) ≤ aL * 100 := by omega
      exact_mod_cast h2
    · have h3 : (0 : Int) ≤ tc := htc.le
      exact_mod_cast h3
  case isFalse => exact le_refl 0

theorem pct_le_100 (aL tc : Int) (h : aL ≤ tc) :
    (if 0 < tc then Rat.divInt (aL * 100) tc else 0) ≤ 100 := by
  split
  case isTrue htc =>
    rw [Rat.divInt_eq_div, div_le_iff₀ (by exact_mod_cast htc)]
    have h2 : aL * 100 ≤ 100 * tc := by omega
    exact_mod_cast h2
  case isFalse => norm_num

/-! ### Invariants of the final split -/

theorem attributionFinalSplit_invariants (cAt : String)
    (work postAdded postRemoved accRemoved accAgent accCommitted nonAgentAdded
     selfMod : Nat) :
    0 ≤ (attributionFinalSplit cAt work postAdded postRemoved accRemoved
        accAgent accCommitted nonAgentAdded selfMod).agentPercentage ∧
    (attributionFinalSplit cAt work postAdded postRemoved accRemoved
        accAgent accCommitted nonAgentAdded selfMod).agentPercentage ≤ 100 ∧
    0 ≤ (attributionFinalSplit cAt work postAdded postRemoved accRemoved
        accAgent accCommitted nonAgentAdded selfMod).agentLines ∧
    0 ≤ (attributionFinalSplit cAt work postAdded postRemoved accRemoved
        accAgent accCommitted nonAgentAdded selfMod).humanAdded ∧
    0 ≤ (attributionFinalSplit cAt work postAdded postRemoved accRemoved
        accAgent accCommitted nonAgentAdded selfMod).humanModified ∧
    0 ≤ (attributionFinalSplit cAt work postAdded postRemoved accRemoved
        accAgent accCommitted nonAgentAdded selfMod).humanRemoved ∧
    0 ≤ (attributionFinalSplit cAt work postAdded postRemoved accRemoved
        accAgent accCommitted nonAgentAdded selfMod).totalCommitted := by
  simp only [attributionFinalSplit, jsMaxInt_eq, jsMinInt_eq]
  set A := max (0 : Int) ((work : Int) - (accAgent : Int)) with hA
  set P := max (0 : Int) ((nonAgentAdded : Int) - (accCommitted : Int)) with hP
  set tUA := (accAgent : Int) + (accCommitted : Int) + (postAdded : Int) + P with htUA
  set tUR := (accRemoved : Int) + (postRemoved : Int) with htUR
  set m := min tUA tUR with hm
  set hMA := max (0 : Int) (m - (selfMod : Int)) with hhMA
  set pA := tUA - m with hpA
  set pR := tUR - m with hpR
  set TC0 := A + pA - pR with hTC0
  set TC := if TC0 ≤ 0 then max (0 : Int) A else TC0 with hTC
  set aL := max (0 : Int) (A - pR - hMA) with haL
  have hTCnn : 0 ≤ TC := by
    rcases le_or_lt TC0 0 with h0 | h0
    · rw [hTC, if_pos h0]
      exact le_max_left 0 A
    · rw [hTC, if_neg (not_le.mpr h0)]
      omega
  have haLle : aL ≤ TC := by
    rcases le_or_lt TC0 0 with h0 | h0
    · rw [hTC, if_pos h0]
      omega
    · rw [hTC, if_neg (not_le.mpr h0)]
      omega
  refine ⟨pct_nonneg aL TC (by omega), pct_le_100 aL TC haLle,
    by omega, by omega, by omega, by omega, hTCnn⟩

/-- C1: for every non-empty `filesTouched` (arbitrary base/shadow/head file
maps and arbitrary `promptAttributions`), the returned `InitialAttribution`
has `0 ≤ agentPercentage ≤ 100` and non-negative `agentLines`, `humanAdded`,
`humanModified`, `humanRemoved` and `totalCommitted`. -/
theorem C1_attribution_invariants (calculatedAt : String)
    (baseFiles shadowFiles headFiles : FileMap) (filesTouched : List String)
    (promptAttributions : List PromptAttribution) (h : filesTouched ≠ []) :
    ∃ r, calculateAttributionWithAccumulated calculatedAt baseFiles shadowFiles
        headFiles filesTouched promptAttributions = some r ∧
      0 ≤ r.agentPercentage ∧ r.agentPercentage ≤ 100 ∧ 0 ≤ r.agentLines ∧
      0 ≤ r.humanAdded ∧ 0 ≤ r.humanModified ∧ 0 ≤ r.humanRemoved ∧
      0 ≤ r.totalCommitted := by
  have hlen : ¬ filesTouched.length = 0 := by
    simpa [List.length_eq_zero] using h
  simp only [calculateAttributionWithAccumulated, if_neg hlen]
  obtain ⟨h1, h2, h3, h4, h5, h6, h7⟩ :=
    attributionFinalSplit_invariants calculatedAt
      (perFileLoop baseFiles shadowFiles headFiles filesTouched).totalAgentAndUserWork
      (perFileLoop baseFiles shadowFiles headFiles filesTouched).postCheckpointUserAdded
      (perFileLoop baseFiles shadowFiles headFiles filesTouched).postCheckpointUserRemoved
      (accumulateUserEdits promptAttributions).1
      (splitAccumulated (accumulateUserEdits promptAttributions).2 filesTouched
        (committedNonAgentFilesOf baseFiles headFiles filesTouched)).1
      (splitAccumulated (accumulateUserEdits promptAttributions).2 filesTouched
        (committedNonAgentFilesOf baseFiles headFiles filesTouched)).2
      (nonAgentUserAddedOf baseFiles headFiles filesTouched)
      (estimateUserSelfModifications (accumulateUserEdits promptAttributions).2
        (perFileLoop baseFiles shadowFiles headFiles
          filesTouched).postCheckpointUserRemovedPerFile)
  exact ⟨_, rfl, h1, h2, h3, h4, h5, h6, h7⟩

/-- Witness for C1 at a concrete one-file scenario. -/
theorem C1_attribution_invariants_witness :
    (["file.txt"] : List String) ≠ [] ∧
    (∃ r, calculateAttributionWithAccumulated "t" [("file.txt", "a\nb\nc\n")]
        [("file.txt", "a\nb\nc\nd\n")] [("file.txt", "a\nb\nc\nd\ne\n")]
        ["file.txt"] [] = some r ∧
      0 ≤ r.agentPercentage ∧ r.agentPercentage ≤ 100 ∧ 0 ≤ r.agentLines ∧
      0 ≤ r.humanAdded ∧ 0 ≤ r.humanModified ∧ 0 ≤ r.humanRemoved ∧
      0 ≤ r.totalCommitted) :=
  ⟨by decide, C1_attribution_invariants "t" [("file.txt", "a\nb\nc\n")]
    [("file.txt", "a\nb\nc\nd\n")] [("file.txt", "a\nb\nc\nd\ne\n")]
    ["file.txt"] [] (by decide)⟩

/-- C3: on the scenario base `"a\nb\nc\n"`, shadow `"a\nb\nc\nd\n"`,
head `"a\nb\nc\nd\ne\n"` for a single agent-touched file with no prompt
attributions, the result has `agentLines = 1`, `humanAdded = 1` and
`agentPercentage = 50`. -/
theorem C3_attribution_scenario :
    (calculateAttributionWithAccumulated "t" [("file.txt", "a\nb\nc\n")]
        [("file.txt", "a\nb\nc\nd\n")] [("file.txt", "a\nb\nc\nd\ne\n")]
        ["file.txt"] []).map
      (fun r => (r.agentLines, r.humanAdded, r.agentPercentage)) =
    some (1, 1, 50) := by decide

/-! ### C2: the `humanModified` field versus the self-modification estimate -/

/-- The implementation's `totalUserAdded` aggregate, recomputed from the
inputs: accumulated additions to agent and committed-non-agent files, plus
post-checkpoint additions, plus the floored non-agent remainder. -/
def totalUserAddedOf (baseFiles shadowFiles headFiles : FileMap)
    (filesTouched : List String) (pas : List PromptAttribution) : Int :=
  ((splitAccumulated (accumulateUserEdits pas).2 filesTouched
      (committedNonAgentFilesOf baseFiles headFiles filesTouched)).1 : Int) +
    ((splitAccumulated (accumulateUserEdits pas).2 filesTouched
      (committedNonAgentFilesOf baseFiles headFiles filesTouched)).2 : Int) +
    ((perFileLoop baseFiles shadowFiles headFiles
      filesTouched).postCheckpointUserAdded : Int) +
    jsMaxInt 0 ((nonAgentUserAddedOf baseFiles headFiles filesTouched : Int) -
      ((splitAccumulated (accumulateUserEdits pas).2 filesTouched
        (committedNonAgentFilesOf baseFiles headFiles filesTouched)).2 : Int))

/-- The implementation's `totalUserRemoved` aggregate, recomputed from the
inputs: accumulated removals plus post-checkpoint removals. -/
def totalUserRemovedOf (baseFiles shadowFiles headFiles : FileMap)
    (filesTouched : List String) (pas : List PromptAttribution) : Int :=
  ((accumulateUserEdits pas).1 : Int) +
    ((perFileLoop baseFiles shadowFiles headFiles
      filesTouched).postCheckpointUserRemoved : Int)

/-- The implementation's `totalAgentAdded` aggregate, recomputed from the
inputs. -/
def totalAgentAddedOf (baseFiles shadowFiles headFiles : FileMap)
    (filesTouched : List String) (pas : List PromptAttribution) : Int :=
  jsMaxInt 0 (((perFileLoop baseFiles shadowFiles headFiles
      filesTouched).totalAgentAndUserWork : Int) -
    ((splitAccumulated (accumulateUserEdits pas).2 filesTouched
      (committedNonAgentFilesOf baseFiles headFiles filesTouched)).1 : Int))

/-- The LIFO self-modification estimate, recomputed from the inputs. -/
def selfModifiedOf (baseFiles shadowFiles headFiles : FileMap)
    (filesTouched : List String) (pas : List PromptAttribution) : Nat :=
  estimateUserSelfModifications (accumulateUserEdits pas).2
    (perFileLoop baseFiles shadowFiles headFiles
      filesTouched).postCheckpointUserRemovedPerFile

/-- The `humanModified` value claim C2 prescribes, following the claim's
words: `min(totalUserAdded, totalUserRemoved) - selfModified`, the
subtraction floored at zero exactly once. To be compared against the field
the implementation actually returns. -/
def claimC2HumanModified (baseFiles shadowFiles headFiles : FileMap)
    (filesTouched : List String) (pas : List PromptAttribution) : Int :=
  jsMaxInt 0
    (jsMinInt (totalUserAddedOf baseFiles shadowFiles headFiles filesTouched pas)
        (totalUserRemovedOf baseFiles shadowFiles headFiles filesTouched pas) -
      (selfModifiedOf baseFiles shadowFiles headFiles filesTouched pas : Int))

/-- C2 counterexample: one agent-touched file `f.txt`, base `"a\n"`, shadow
`"a\nu\n"` (the human added the `u` line during the turn, recorded in the
prompt attribution), head `"a\n"` (the human then removed it): the
implementation returns `humanModified = 1` (`min(totalUserAdded,
totalUserRemoved)` with no subtraction), while the claim's formula
`min(totalUserAdded, totalUserRemoved) - selfModified` gives `0`. -/
theorem C2_humanModified_counterexample :
    ((calculateAttributionWithAccumulated "t" [("f.txt", "a\n")]
        [("f.txt", "a\nu\n")] [("f.txt", "a\n")] ["f.txt"]
        [⟨1, 1, 0, 0, 0, [("f.txt", 1)]⟩]).map (fun r => r.humanModified)) =
      some 1 ∧
    claimC2HumanModified [("f.txt", "a\n")] [("f.txt", "a\nu\n")]
      [("f.txt", "a\n")] ["f.txt"] [⟨1, 1, 0, 0, 0, [("f.txt", 1)]⟩] = 0 := by
  constructor <;> decide

/-- C2 (amended): the returned `humanModified` field is
`min(totalUserAdded, totalUserRemoved)` with NO self-modification
subtraction; the floored difference
`max(0, humanModified - selfModified)` (the source's `humanModifiedAgent`)
only enters the returned `agentLines`, as
`agentLines = max(0, totalAgentAdded - pureUserRemoved - humanModifiedAgent)`
with `pureUserRemoved = totalUserRemoved - humanModified`. -/
theorem C2_humanModified_amended (calculatedAt : String)
    (baseFiles shadowFiles headFiles : FileMap) (filesTouched : List String)
    (pas : List PromptAttribution) (h : filesTouched ≠ []) :
    ∃ r, calculateAttributionWithAccumulated calculatedAt baseFiles shadowFiles
        headFiles filesTouched pas = some r ∧
      r.humanModified =
        jsMinInt (totalUserAddedOf baseFiles shadowFiles headFiles filesTouched pas)
          (totalUserRemovedOf baseFiles shadowFiles headFiles filesTouched pas) ∧
      r.agentLines =
        jsMaxInt 0 (totalAgentAddedOf baseFiles shadowFiles headFiles filesTouched pas
          - (totalUserRemovedOf baseFiles shadowFiles headFiles filesTouched pas
              - r.humanModified)
          - jsMaxInt 0 (r.humanModified
              - (selfModifiedOf baseFiles shadowFiles headFiles filesTouched pas : Int))) := by
  have hlen : ¬ filesTouched.length = 0 := by
    simpa [List.length_eq_zero] using h
  simp only [calculateAttributionWithAccumulated, if_neg hlen]
  refine ⟨_, rfl, ?_, ?_⟩
  · simp only [attributionFinalSplit, totalUserAddedOf, totalUserRemovedOf]
  · simp only [attributionFinalSplit, totalUserAddedOf, totalUserRemovedOf,
      totalAgentAddedOf, selfModifiedOf]

/-- Witness for the amended C2 at the counterexample input. -/
theorem C2_humanModified_amended_witness :
    ∃ r, calculateAttributionWithAccumulated "t" [("f.txt", "a\n")]
        [("f.txt", "a\nu\n")] [("f.txt", "a\n")] ["f.txt"]
        [⟨1, 1, 0, 0, 0, [("f.txt", 1)]⟩] = some r ∧
      r.humanModified =
        jsMinInt (totalUserAddedOf [("f.txt", "a\n")] [("f.txt", "a\nu\n")]
            [("f.txt", "a\n")] ["f.txt"] [⟨1, 1, 0, 0, 0, [("f.txt", 1)]⟩])
          (totalUserRemovedOf [("f.txt", "a\n")] [("f.txt", "a\nu\n")]
            [("f.txt", "a\n")] ["f.txt"] [⟨1, 1, 0, 0, 0, [("f.txt", 1)]⟩]) ∧
      r.agentLines =
        jsMaxInt 0 (totalAgentAddedOf [("f.txt", "a\n")] [("f.txt", "a\nu\n")]
            [("f.txt", "a\n")] ["f.txt"] [⟨1, 1, 0, 0, 0, [("f.txt", 1)]⟩]
          - (totalUserRemovedOf [("f.txt", "a\n")] [("f.txt", "a\nu\n")]
              [("f.txt", "a\n")] ["f.txt"] [⟨1, 1, 0, 0, 0, [("f.txt", 1)]⟩]
              - r.humanModified)
          - jsMaxInt 0 (r.humanModified
              - (selfModifiedOf [("f.txt", "a\n")] [("f.txt", "a\nu\n")]
                  [("f.txt", "a\n")] ["f.txt"]
                  [⟨1, 1, 0, 0, 0, [("f.txt", 1)]⟩] : Int))) :=
  C2_humanModified_amended "t" [("f.txt", "a\n")] [("f.txt", "a\nu\n")]
    [("f.txt", "a\n")] ["f.txt"] [⟨1, 1, 0, 0, 0, [("f.txt", 1)]⟩] (by decide)

end EntireCli
